import Mathlib

/-!
# Verification of the Parostok catalog backend

A shallow embedding, in Lean 4, of the core of the Parostok catalog
backend (`backend/main.py` and `backend/scrapers/bayer_ua_dekalb.py`),
together with theorems about the reconciliation engine (`upsert_items`),
the run driver (`run_update`), the manual-import endpoint, the URL
discovery filters and the block parsing of the scraper, and the byte
decoding of `fetch`.

Modelling conventions, used throughout:

* SQLite tables become Lean lists of row structures, kept in insertion
  order (SQLite returns rows of `SELECT ... WHERE hybrid_id=?` in rowid
  order, which is insertion order here).
* `utc_now()` timestamps are abstracted to `String` parameters supplied
  by a clock function; their values never influence control flow.
* SHA-256 is modelled as an injective function on strings (the digest is
  represented by the digested content itself); two digests are equal
  exactly when the digested serializations are equal, i.e. the model
  assumes collision freedom, which is the design intent of
  content-addressed diffing.
* Attribute values are modelled after `str(value)`: both the fingerprint
  (`str(a.get("value"))`) and the stored-row fingerprint
  (`str(r["value"])`) pass values through `str`, so the model carries
  the stringified value.
-/

namespace Parostok

/-- One row of the `hybrids` table (`backend/main.py`, `init_db`). -/
structure HybridRow where
  id : Nat
  crop : String
  name : String
  brand : Option String
  market : String
  source_url : String
  last_seen : String
  last_updated : String
  deriving DecidableEq, Repr

/-- One row of the `attributes` table (`backend/main.py`, `init_db`).
`value` is the stringified value (see the modelling conventions);
`evidence` is never NULL because `upsert_items` always inserts
`attr.get("evidence", "")`. -/
structure AttrRow where
  hybrid_id : Nat
  key : String
  value : String
  evidence : String
  evidence_hash : Option String
  selector : Option String
  source_url : String
  extracted_at : String
  deriving DecidableEq, Repr

/-- The relational store: the `hybrids` and `attributes` tables plus the
next AUTOINCREMENT id for `hybrids`. -/
structure DB where
  hybrids : List HybridRow
  attrs : List AttrRow
  nextId : Nat
  deriving DecidableEq, Repr

/-- The empty store right after `init_db`. -/
def DB.empty : DB := ⟨[], [], 0⟩

/-- One in-flight attribute record of an item, as consumed by
`upsert_items`: `key` is required (`attr["key"]`), `value` is the
stringified `attr.get("value")`, `evidence` is `attr.get("evidence", "")`
with the default already applied, and the remaining fields keep their
`attr.get(...)` optionality. -/
structure ItemAttr where
  key : String
  value : String
  evidence : String
  selector : Option String
  source_url : Option String
  extracted_at : Option String
  deriving DecidableEq, Repr

/-- One in-flight item, as consumed by `upsert_items`.  `name`, `market`
and `source_url` are required lookups (`item["name"]` etc.), so they are
total fields; an item with a NULL name would crash `upsert_items` in the
source and is outside this model, matching the claims' non-null
hypothesis. -/
structure Item where
  crop : String
  name : String
  brand : Option String
  market : String
  source_url : String
  attributes : List ItemAttr
  deriving DecidableEq, Repr

/-- The identity key of a stored hybrid: (name, market, source_url). -/
def HybridRow.key (h : HybridRow) : String × String × String :=
  (h.name, h.market, h.source_url)

/-- The identity key of an in-flight item: (name, market, source_url). -/
def Item.key (it : Item) : String × String × String :=
  (it.name, it.market, it.source_url)

/-- Model of `SELECT id FROM hybrids WHERE name=? AND market=? AND source_url=?`
(first matching row, as `fetchone`). -/
def findHybrid (db : DB) (k : String × String × String) : Option HybridRow :=
  db.hybrids.find? (fun h => h.key == k)

/-- SHA-256, modelled as an injective function on strings (see the
modelling conventions at the top of the file). -/
def sha256 (s : String) : String := s

/-- The lexicographic tuple order Python's `sorted` uses on
(key, value, evidence) triples of strings (strings compare by code
points, as Lean's `String` order does). -/
def tripleLe (a b : String × String × String) : Bool :=
  a.1 < b.1 || (a.1 == b.1 && (a.2.1 < b.2.1 ||
    (a.2.1 == b.2.1 && (a.2.2 < b.2.2 || a.2.2 == b.2.2))))

/-- Ordered insertion of one triple into a sorted list of triples. -/
def insertTriple (a : String × String × String) :
    List (String × String × String) → List (String × String × String)
  | [] => [a]
  | b :: rest =>
    if tripleLe a b then a :: b :: rest else b :: insertTriple a rest

/-- Model of Python's `sorted` on triple lists (insertion sort by the
total lexicographic order; equal triples are identical, so stability
cannot influence the result). -/
def sortTriples : List (String × String × String) →
    List (String × String × String)
  | [] => []
  | a :: rest => insertTriple a (sortTriples rest)

/-- The canonical fingerprint of an attribute list: the sorted list of
(key, stringified value, evidence) triples.  In the source this list is
serialized with `json.dumps` and digested with SHA-256; both steps are
injective on such triple lists, so the model compares the sorted triple
lists directly. -/
def fingerprint (ts : List (String × String × String)) :
    List (String × String × String) :=
  sortTriples ts

/-- The fingerprint triples of an item's attribute list:
`(a.get("key"), str(a.get("value")), a.get("evidence", ""))`. -/
def itemTriples (it : Item) : List (String × String × String) :=
  it.attributes.map (fun a => (a.key, a.value, a.evidence))

/-- The rows of the `attributes` table belonging to one hybrid
(`SELECT ... FROM attributes WHERE hybrid_id=?`). -/
def attrsFor (db : DB) (hid : Nat) : List AttrRow :=
  db.attrs.filter (fun a => a.hybrid_id == hid)

/-- The fingerprint triples of stored attribute rows:
`(r["key"], str(r["value"]), r["evidence"] or "")`.  Stored evidence is
never NULL in this model (it is inserted with default `""`), and
`"" or ""` is `""`, so the `or ""` is the identity here. -/
def rowTriples (rows : List AttrRow) : List (String × String × String) :=
  rows.map (fun r => (r.key, r.value, r.evidence))

/-- One freshly inserted `attributes` row (the INSERT inside
`upsert_items`): evidence defaults are already applied in `ItemAttr`;
`evidence_hash` is the digest of the evidence when non-empty, else NULL;
`source_url` defaults to the item's URL and `extracted_at` to `now`. -/
def mkAttrRow (hid : Nat) (now itemUrl : String) (a : ItemAttr) : AttrRow :=
  { hybrid_id := hid
    key := a.key
    value := a.value
    evidence := a.evidence
    evidence_hash := if a.evidence = "" then none else some (sha256 a.evidence)
    selector := a.selector
    source_url := a.source_url.getD itemUrl
    extracted_at := a.extracted_at.getD now }

/-- The freshly inserted `hybrids` row of the `INSERT OR IGNORE` inside
`upsert_items`: crop, name, brand, market and source_url from the item,
`last_seen` and `last_updated` set to `now`, with the next AUTOINCREMENT
id. -/
def mkHybridRow (id : Nat) (now : String) (item : Item) : HybridRow :=
  { id := id, crop := item.crop, name := item.name, brand := item.brand,
    market := item.market, source_url := item.source_url,
    last_seen := now, last_updated := now }

/-- The classification of one reconciled item. -/
inductive Class where
  | added
  | updated
  | unchanged
  deriving DecidableEq, Repr

/-- The counters returned by `upsert_items`. -/
structure Counts where
  added : Nat
  updated : Nat
  unchanged : Nat
  deriving DecidableEq, Repr

/-- All-zero counters, the initial value of `upsert_items`. -/
def Counts.zero : Counts := ⟨0, 0, 0⟩

/-- Increment the counter selected by a classification. -/
def Counts.bump (c : Counts) : Class → Counts
  | .added => { c with added := c.added + 1 }
  | .updated => { c with updated := c.updated + 1 }
  | .unchanged => { c with unchanged := c.unchanged + 1 }

/-- Model of `UPDATE hybrids SET last_seen=? WHERE id=?`. -/
def touchSeen (hid : Nat) (now : String) (h : HybridRow) : HybridRow :=
  if h.id = hid then { h with last_seen := now } else h

/-- Model of `UPDATE hybrids SET last_seen=?, last_updated=? WHERE id=?`. -/
def touchBoth (hid : Nat) (now : String) (h : HybridRow) : HybridRow :=
  if h.id = hid then { h with last_seen := now, last_updated := now } else h

/-- The body of the per-item loop of `upsert_items`
(`backend/main.py:305-373`), for one item at one instant `now`:

1. look the identity key up (`existing` / `had_existing`);
2. `INSERT OR IGNORE` a fresh hybrid row — the uniqueness check of
   `INSERT OR IGNORE` repeats the lookup of step 1, which in this
   sequential model is the same lookup, and `cur.rowcount` is 1 exactly
   when the row was absent (classified "added" below);
3. re-select the hybrid id (`fetchone()[0]`; the `none` branch of the
   `getD` is unreachable because the row now exists);
4. compare the canonical fingerprints of the item's attributes and of
   the stored attribute rows;
5. matching fingerprints on a pre-existing hybrid: "unchanged", touch
   only `last_seen`; otherwise: "updated" (pre-existing) or "added"
   (fresh), touch `last_seen` and `last_updated`, delete the whole prior
   attribute set and insert the new set wholesale. -/
def upsertItem (db : DB) (now : String) (item : Item) : DB × Class :=
  let had_existing := (findHybrid db item.key).isSome
  let db1 : DB :=
    if had_existing then db
    else
      { db with
        hybrids := db.hybrids ++ [mkHybridRow db.nextId now item]
        nextId := db.nextId + 1 }
  let hid := ((findHybrid db1 item.key).map (fun h => h.id)).getD 0
  let newFp := fingerprint (itemTriples item)
  let oldFp := fingerprint (rowTriples (attrsFor db1 hid))
  if had_existing ∧ newFp = oldFp then
    ({ db1 with hybrids := db1.hybrids.map (touchSeen hid now) },
      Class.unchanged)
  else
    ({ db1 with
        hybrids := db1.hybrids.map (touchBoth hid now)
        attrs := db1.attrs.filter (fun a => ! (a.hybrid_id == hid)) ++
          item.attributes.map (mkAttrRow hid now item.source_url) },
      if had_existing then Class.updated else Class.added)

/-- The loop of `upsert_items`, threading the store and the counters;
`clock i` is the `utc_now()` observed while processing the i-th item. -/
def upsertLoop (clock : Nat → String) : Nat → DB → Counts → List Item →
    DB × Counts
  | _, db, acc, [] => (db, acc)
  | i, db, acc, item :: rest =>
    let r := upsertItem db (clock i) item
    upsertLoop clock (i + 1) r.1 (acc.bump r.2) rest

/-- The reconciler `upsert_items` (`backend/main.py:302-375`): reconcile a batch of
items against the store, returning the new store and the counters
(`write_fallback` is snapshot I/O with no effect on the store). -/
def upsert_items (db : DB) (clock : Nat → String) (items : List Item) :
    DB × Counts :=
  upsertLoop clock 0 db Counts.zero items

/-- Store well-formedness maintained by SQLite's AUTOINCREMENT: hybrid
row ids are pairwise distinct and below the next id. -/
def WF (db : DB) : Prop :=
  (db.hybrids.map (fun h => h.id)).Nodup ∧
  ∀ h ∈ db.hybrids, h.id < db.nextId

/-- The store already reflects an item: its identity key resolves to a
hybrid whose stored attribute rows carry the item's canonical
fingerprint. -/
def Good (db : DB) (it : Item) : Prop :=
  ∃ h, findHybrid db it.key = some h ∧
    fingerprint (itemTriples it) = fingerprint (rowTriples (attrsFor db h.id))

/-- The identity-uniqueness invariant of the `hybrids` table
(`UNIQUE(name, market, source_url)` in `init_db`): no two rows share an
identity key. -/
def UniqueKeys (db : DB) : Prop :=
  db.hybrids.Pairwise (fun a b => a.key ≠ b.key)

/-! ## Run driver (`run_update`) and the manual-import endpoint -/

/-- Model of `UpdateRequest` (`backend/main.py:26-29`): the fields of the update
trigger (the `markets` field is never read by `run_update`, but is kept
for fidelity). -/
structure UpdateRequest where
  markets : List String
  sources : List String
  dry_run : Bool
  deriving DecidableEq, Repr

/-- One entry of the source registry (`backend/main.py:32-39`); the
`last_run` and `fields` metadata play no role in `run_update`'s control
flow and are omitted. -/
structure SourceStatus where
  id : String
  market : String
  enabled : Bool
  reason : Option String
  deriving DecidableEq, Repr

/-- Model of `source_registry` (`backend/main.py:96-123`). -/
def source_registry : List SourceStatus :=
  [ { id := "bayer_ua_dekalb", market := "UA", enabled := true,
      reason := none },
    { id := "bayer_us_dekalb", market := "US", enabled := false,
      reason := some
        "Network scraping not configured in this starter; use manual import." } ]

/-- The run counters (`backend/main.py:249`). -/
structure RunCounts where
  discovered : Nat
  parsed : Nat
  added : Nat
  updated : Nat
  unchanged : Nat
  errors : Nat
  deriving DecidableEq, Repr

/-- The all-zero run counters of a freshly created run. -/
def RunCounts.zero : RunCounts := ⟨0, 0, 0, 0, 0, 0⟩

/-- One run record (`backend/main.py:244-250`).  Log entries are
modelled by their message strings; the timestamp attached to each entry
never influences behaviour.  `persist_run` and `write_fallback` are
snapshot I/O and are modelled as no-ops on this state. -/
structure Run where
  status : String
  step_logs : List String
  started_at : String
  finished_at : Option String
  counts : RunCounts
  deriving DecidableEq, Repr

/-- The run record created by `post_update` before the worker starts. -/
def initRun (now : String) : Run :=
  { status := "running", step_logs := [], started_at := now,
    finished_at := none, counts := RunCounts.zero }

/-- What `BayerUADekalbScraper.run()` returns
(`bayer_ua_dekalb.py:178-190`), as consumed by `run_update`. -/
structure ScrapeResult where
  catalog_urls : List String
  product_urls : List String
  items : List Item
  deriving Repr

/-- Append one log message (`log(msg)` inside `run_update`; the
timestamp and the persistence side effect are abstracted away). -/
def Run.log (r : Run) (msg : String) : Run :=
  { r with step_logs := r.step_logs ++ [msg] }

/-- The body of the `for src in enabled_sources` loop of `run_update`
(`backend/main.py:196-222`) for one source.  The only fallible
operation of the body is `scraper.run()` (network I/O), whose outcome is
supplied as `scrape`: `.ok` carries the scraped result, `.error` carries
the stringified exception; the `except Exception` handler is the
`.error` branch. -/
def runSource (scrape : Except String ScrapeResult) (dry_run : Bool)
    (clock : Nat → String) (src : SourceStatus) (st : Run × DB) :
    Run × DB :=
  let run := st.1
  if src.id ≠ "bayer_ua_dekalb" then
    (run.log ("Source " ++ src.id ++ " currently has no scraper implementation."),
      st.2)
  else
    let run := run.log "Fetching bayer_ua_dekalb start page."
    match scrape with
    | .error exc =>
      ({ run with
          counts := { run.counts with errors := run.counts.errors + 1 } }.log
        ("Source " ++ src.id ++ " failed: " ++ exc), st.2)
    | .ok result =>
      let run :=
        { run with
          counts :=
            { run.counts with
              discovered := run.counts.discovered + result.product_urls.length } }
      let run := run.log
        ("Discovered catalog pages: " ++ toString result.catalog_urls.length)
      let run := run.log
        ("Discovered product pages: " ++ toString result.product_urls.length)
      if dry_run then
        (({ run with
            counts :=
              { run.counts with
                parsed := run.counts.parsed + result.items.length } }.log
          "Dry-run enabled. Skipping database writes."), st.2)
      else
        let res := upsert_items st.2 clock result.items
        let counts := res.2
        let run :=
          { run with
            counts :=
              { run.counts with
                added := run.counts.added + counts.added
                updated := run.counts.updated + counts.updated
                unchanged := run.counts.unchanged + counts.unchanged
                parsed := run.counts.parsed + result.items.length } }
        let run := run.log
          ("Parsed products: " ++ toString result.items.length)
        let run := run.log
          ("DB changes: added=" ++ toString counts.added ++
            " updated=" ++ toString counts.updated ++
            " unchanged=" ++ toString counts.unchanged)
        (run, res.1)

/-- The run driver `run_update` (`backend/main.py:171-227`): starting from the run
record `post_update` registered, log the start, log and skip disabled
requested sources, return early (still "completed") when no enabled
source was requested, otherwise run each enabled source with the
per-source exception boundary of `runSource`, and finish the run as
"completed" with `finished_at` set.  `now` abstracts the `utc_now()`
values observed while finishing; `clock` feeds `upsert_items`. -/
def run_update (req : UpdateRequest) (scrape : Except String ScrapeResult)
    (db : DB) (now : String) (clock : Nat → String) : Run × DB :=
  let run := (initRun now).log "Starting catalog sync job."
  let enabled_sources :=
    source_registry.filter (fun s => req.sources.contains s.id && s.enabled)
  let disabled_sources :=
    source_registry.filter (fun s => req.sources.contains s.id && !s.enabled)
  let run := disabled_sources.foldl
    (fun r src => r.log ("Source " ++ src.id ++ " disabled: " ++
      (src.reason.getD "None"))) run
  if enabled_sources.isEmpty then
    ({ run with status := "completed", finished_at := some now }.log
      "No enabled sources. Nothing fetched.", db)
  else
    let st := enabled_sources.foldl
      (fun st src => runSource scrape req.dry_run clock src st) (run, db)
    ({ st.1 with status := "completed", finished_at := some now }, st.2)

/-- The endpoint `manual_import` (`backend/main.py:296-299`): run the reconciler on
the payload's items and answer with a mapping holding only the "added"
counter.  The response is modelled as the association list of the JSON
object literal `\x7b"added": counts["added"]\x7d`. -/
def manual_import (db : DB) (clock : Nat → String) (items : List Item) :
    DB × List (String × Nat) :=
  let counts := upsert_items db clock items
  (counts.1, [("added", counts.2.added)])

/-! ## Scraper: URL discovery (`bayer_ua_dekalb.py:72-107`) -/

/-- A hyperlink target of a page, already resolved against the base URL
(`urljoin`) and split into the components `urlparse` reads
(`params` never occurs on these URLs and is omitted). -/
structure Link where
  scheme : String
  netloc : String
  path : String
  query : String
  fragment : String
  deriving DecidableEq, Repr

/-- Reassemble the resolved absolute URL string (`urlunparse` layout:
`scheme://netloc/path?query#fragment`, empty components omitted). -/
def Link.render (l : Link) : String :=
  l.scheme ++ "://" ++ l.netloc ++ l.path ++
    (if l.query = "" then "" else "?" ++ l.query) ++
    (if l.fragment = "" then "" else "#" ++ l.fragment)

/-- Model of `full.split("?")[0]`: everything before the first "?" of the
rendered URL. -/
def stripQuery (l : Link) : String :=
  (l.render.splitOn "?").headD ""

/-- Model of `path.count("/")`: the number of "/" characters of a path (for the
one-character pattern, Python's substring count is the character
count). -/
def slashCount (p : String) : Nat :=
  p.toList.count '/'

/-- Model of `path.rstrip("/")`: drop every trailing "/" character. -/
def rstripSlash (p : String) : String :=
  String.mk ((p.toList.reverse.dropWhile (fun c => c = '/')).reverse)

/-- Model of `"/Products/Dekalb/" in path`: substring containment. -/
def containsCatalogSegment (p : String) : Bool :=
  decide ("/Products/Dekalb/".toList <:+: p.toList)

/-- The keep condition of `discover_catalog_pages`
(`bayer_ua_dekalb.py:80-86`): host is the fixed start host, the path
contains the catalog segment, the path is not the catalog root itself,
and the path depth (slash count) is exactly 3. -/
def catalogKeep (l : Link) : Bool :=
  l.netloc == "www.cropscience.bayer.ua" &&
  containsCatalogSegment l.path &&
  !(rstripSlash l.path == "/Products/Dekalb") &&
  slashCount l.path == 3

/-- Model of `sorted(found)` over a `set` of strings: deduplicate, then sort
lexically (Python compares strings by code points, as Lean's
`String` order does). -/
def sortedUrls (urls : List String) : List String :=
  urls.dedup.mergeSort (fun a b => decide (a ≤ b))

/-- The function `discover_catalog_pages` (`bayer_ua_dekalb.py:72-88`), given the
resolved hyperlink targets of the start page: filter with
`catalogKeep` (the query string does not affect `netloc`/`path`, so the
filter reads the link's components directly), collect the
query-stripped URLs into a set, and return them sorted. -/
def discover_catalog_pages (links : List Link) : List String :=
  sortedUrls ((links.filter catalogKeep).map stripQuery)

/-- The keep condition of `discover_product_pages`
(`bayer_ua_dekalb.py:94-105`) for a catalog page whose path is
`catalogPath`: host matches, the path extends the catalog page's path
prefix (trailing slash normalized), is not that prefix itself, and has
depth at least 4.  The candidate is query-stripped before parsing in
the source; stripping leaves `netloc` and `path` unchanged, so the
condition reads the link's components directly. -/
def productKeep (catalogPath : String) (l : Link) : Bool :=
  let prefixPath := rstripSlash catalogPath ++ "/"
  l.netloc == "www.cropscience.bayer.ua" &&
  prefixPath.isPrefixOf l.path &&
  !(rstripSlash l.path == rstripSlash prefixPath) &&
  decide (4 ≤ slashCount l.path)

/-- The function `discover_product_pages` (`bayer_ua_dekalb.py:90-107`), given the
path of the catalog page and the resolved hyperlink targets of that
page: keep the query-stripped URLs passing `productKeep`, deduplicated
and sorted. -/
def discover_product_pages (catalogPath : String) (links : List Link) :
    List String :=
  sortedUrls ((links.filter (productKeep catalogPath)).map stripQuery)

/-! ## Scraper: text blocks and key:value lines
(`bayer_ua_dekalb.py:29-55`) -/

/-- The whitespace characters of `re`'s `\s` on the scraped text (the
page text is ASCII-spaced after `parse_product` replaces ` `;
further Unicode spaces never occur there). -/
def isPyWhitespace (c : Char) : Bool :=
  c = ' ' || c = '\t' || c = '\n' || c = '\r' ||
    c = '\x0b' || c = '\x0c'

/-- Inner loop of whitespace collapsing: `prevWs` records whether the
previous character belonged to a whitespace run that already emitted
its single space. -/
def collapseWsGo (prevWs : Bool) : List Char → List Char
  | [] => []
  | c :: rest =>
    if isPyWhitespace c then
      if prevWs then collapseWsGo true rest
      else ' ' :: collapseWsGo true rest
    else c :: collapseWsGo false rest

/-- Model of `re.sub(r"\s+", " ", s)` on a character list: every maximal
whitespace run becomes a single space. -/
def collapseWs (cs : List Char) : List Char :=
  collapseWsGo false cs

/-- Model of `str.strip()` after whitespace collapsing: drop leading and
trailing spaces (after `collapseWs` every whitespace is a space). -/
def stripEnds (cs : List Char) : List Char :=
  ((cs.dropWhile (fun c => c = ' ')).reverse.dropWhile
    (fun c => c = ' ')).reverse

/-- The function `BayerUADekalbScraper._clean` (`bayer_ua_dekalb.py:29-31`)
on a character list: `re.sub(r"\s+", " ", s).strip()`. -/
def cleanChars (cs : List Char) : List Char :=
  stripEnds (collapseWs cs)

/-- The function `BayerUADekalbScraper._clean` (`bayer_ua_dekalb.py:29-31`):
`re.sub(r"\s+", " ", s).strip()`. -/
def clean (s : String) : String :=
  String.mk (cleanChars s.toList)

/-- Model of `str.split(sep)` for a one-character separator, on
character lists (Python: splitting the empty string yields `[""]`). -/
def splitOnChar (sep : Char) : List Char → List (List Char)
  | [] => [[]]
  | c :: rest =>
    match splitOnChar sep rest with
    | [] => [[c]]
    | h :: t => if c = sep then [] :: h :: t else (c :: h) :: t

/-- One character of the heading class of `_find_block`'s lookahead
`[A-ZА-ЯІЇЄҐ0-9 \-]`. -/
def isHeadingChar (c : Char) : Bool :=
  ('A' ≤ c && c ≤ 'Z') || ('А' ≤ c && c ≤ 'Я') ||
  c = 'І' || c = 'Ї' || c = 'Є' || c = 'Ґ' ||
  ('0' ≤ c && c ≤ '9') || c = ' ' || c = '-'

/-- A line that the lookahead of `_find_block` treats as the next
heading: at least 5 characters, all drawn from the heading class. -/
def isHeadingLine (l : String) : Bool :=
  decide (5 ≤ l.length) && l.toList.all isHeadingChar

/-- Join lines back with the newline separators the page text had. -/
def joinLines : List (List Char) → List Char
  | [] => []
  | [l] => l
  | l :: rest => l ++ '\n' :: joinLines rest

/-- The function `BayerUADekalbScraper._find_block` (`bayer_ua_dekalb.py:37-40`) on
the line-structured page text (`parse_product` builds the text as
newline-separated lines with blank lines collapsed):
`re.search(rf"\x7bh\x7d\s+(.*?)(?=\n[A-ZА-ЯІЇЄҐ0-9 \-]\x7b5,\x7d\n|\Z)", text,
re.DOTALL)` with the heading occurring as a full line followed by at
least one further line, as on the scraped pages: the match captures
from the line after the heading up to (exclusive) the next
heading-class line, and the result is passed through `_clean` — which
collapses the newlines inside the block into single spaces. -/
def find_block (heading : String) (lines : List String) : Option String :=
  match lines.dropWhile (fun l => l ≠ heading) with
  | [] => none
  | _ :: rest =>
    match rest with
    | [] => none
    | first :: others =>
      some (String.mk (cleanChars (joinLines ((first ::
        others.takeWhile (fun l => ! isHeadingLine l)).map String.toList))))

/-- Insertion into a Python `dict`: overwrite in place when the key is
present, append otherwise (insertion order is preserved). -/
def dictInsert (d : List (String × String)) (k v : String) :
    List (String × String) :=
  if d.any (fun p => p.1 == k) then
    d.map (fun p => if p.1 == k then (k, v) else p)
  else d ++ [(k, v)]

/-- The function `BayerUADekalbScraper._parse_kv_lines` (`bayer_ua_dekalb.py:42-55`):
split the block on newlines; clean each line; skip lines without a
colon; split the rest at the first colon (`line.split(":", 1)`: the key
is everything before the first colon, the value everything after it)
into cleaned key and value; keep only pairs with non-empty key and
non-empty value, as a dict. -/
def parse_kv_lines (block : String) : List (String × String) :=
  (splitOnChar '\n' block.toList).foldl
    (fun out rawLine =>
      let line := cleanChars rawLine
      if line.contains ':' then
        let k := String.mk (cleanChars (line.takeWhile (fun c => c ≠ ':')))
        let v := String.mk (cleanChars
          ((line.dropWhile (fun c => c ≠ ':')).tail))
        if k ≠ "" ∧ v ≠ "" then dictInsert out k v else out
      else out)
    []

/-! ## Scraper: `fetch` byte decoding (`bayer_ua_dekalb.py:18-27`) -/

/-- One UTF-8 continuation byte (`0x80..0xBF`). -/
def isCont (b : Nat) : Bool :=
  0x80 ≤ b && b ≤ 0xBF

/-- Model of `resp.read().decode("utf-8", errors="ignore")`
(`bayer_ua_dekalb.py:27`): decode a byte sequence as UTF-8, skipping
bytes that do not start a valid sequence (and the prefix of an invalid
or truncated sequence) instead of raising.  The valid sequences are
those of the UTF-8 definition Python enforces: no overlong forms, no
surrogates (`0xED` limits the second byte to `0x80..0x9F`), maximum
scalar `0x10FFFF` (`0xF4` limits the second byte to `0x80..0x8F`). -/
def decodeIgnore : List Nat → List Char
  | [] => []
  | b :: rest =>
    if b < 0x80 then
      Char.ofNat b :: decodeIgnore rest
    else if 0xC2 ≤ b ∧ b ≤ 0xDF then
      match h2 : rest with
      | b2 :: rest2 =>
        if isCont b2 then
          Char.ofNat ((b - 0xC0) * 0x40 + (b2 - 0x80)) :: decodeIgnore rest2
        else decodeIgnore rest
      | [] => []
    else if 0xE0 ≤ b ∧ b ≤ 0xEF then
      match h2 : rest with
      | b2 :: rest2 =>
        if (if b = 0xE0 then 0xA0 ≤ b2 && b2 ≤ 0xBF
            else if b = 0xED then 0x80 ≤ b2 && b2 ≤ 0x9F
            else isCont b2) then
          match h3 : rest2 with
          | b3 :: rest3 =>
            if isCont b3 then
              Char.ofNat ((b - 0xE0) * 0x1000 + (b2 - 0x80) * 0x40 +
                (b3 - 0x80)) :: decodeIgnore rest3
            else decodeIgnore rest2
          | [] => []
        else decodeIgnore rest
      | [] => []
    else if 0xF0 ≤ b ∧ b ≤ 0xF4 then
      match h2 : rest with
      | b2 :: rest2 =>
        if (if b = 0xF0 then 0x90 ≤ b2 && b2 ≤ 0xBF
            else if b = 0xF4 then 0x80 ≤ b2 && b2 ≤ 0x8F
            else isCont b2) then
          match h3 : rest2 with
          | b3 :: rest3 =>
            if isCont b3 then
              match h4 : rest3 with
              | b4 :: rest4 =>
                if isCont b4 then
                  Char.ofNat ((b - 0xF0) * 0x40000 + (b2 - 0x80) * 0x1000 +
                    (b3 - 0x80) * 0x40 + (b4 - 0x80)) :: decodeIgnore rest4
                else decodeIgnore rest3
              | [] => []
            else decodeIgnore rest2
          | [] => []
        else decodeIgnore rest
      | [] => []
    else
      decodeIgnore rest
termination_by l => l.length
decreasing_by all_goals (simp_all; try omega)


/-! ## Concrete inputs used by witnesses and counterexamples -/

/-- A concrete clock for witness runs. -/
def exClock : Nat → String := fun i => "T" ++ toString i

/-- A concrete extracted attribute (an FAO maturity index). -/
def exAttrOne : ItemAttr :=
  ⟨"fao", "260", "FAO: 260", some "regex_on_page_text", none, none⟩

/-- The same attribute key with a different value. -/
def exAttrTwo : ItemAttr :=
  ⟨"fao", "280", "FAO: 280", some "regex_on_page_text", none, none⟩

/-- A concrete item. -/
def exItemOne : Item :=
  ⟨"corn", "DK One", none, "UA", "https://example/one", [exAttrOne]⟩

/-- An item with the same identity key as `exItemOne` but a different
attribute set. -/
def exItemTwo : Item := { exItemOne with attributes := [exAttrTwo] }

/-- A second item whose identity key differs from `exItemOne`. -/
def exItemB : Item :=
  ⟨"corn", "DK Two", none, "UA", "https://example/two", [exAttrOne]⟩

/-- The stored hybrid row of `exItemOne` after a first reconciliation. -/
def exHybrid : HybridRow :=
  ⟨0, "corn", "DK One", none, "UA", "https://example/one", "T0", "T0"⟩

/-- The stored attribute row of `exItemOne` after a first
reconciliation. -/
def exRow : AttrRow :=
  ⟨0, "fao", "260", "FAO: 260", some (sha256 "FAO: 260"),
    some "regex_on_page_text", "https://example/one", "T0"⟩

/-- A store already holding `exItemOne`. -/
def exDB : DB := ⟨[exHybrid], [exRow], 1⟩

/-- The line-structured text of the product-page scenario of the
repository's own scraper test (`tests/test_bayer_ua_dekalb.py`), around
its two-line positioning block. -/
def positioningPage : List String :=
  ["ДКС 3747",
   "ПОЗИЦІОНУВАННЯ ГІБРИДА",
   "Зона вирощування: усі зони",
   "Рівень мінерального живлення: середній, високий",
   "ГУСТОТА НА ЧАС ЗБИРАННЯ",
   "Посушливі умови: 50 000–55 000 шт./га"]

/-! ## Helper lemmas -/

theorem upsertLoop_counts_sum (clock : Nat → String) (items : List Item) :
    ∀ (i : Nat) (db : DB) (acc : Counts),
      (upsertLoop clock i db acc items).2.added +
        (upsertLoop clock i db acc items).2.updated +
        (upsertLoop clock i db acc items).2.unchanged =
      acc.added + acc.updated + acc.unchanged + items.length := by
  induction items with
  | nil => intro i db acc; simp [upsertLoop]
  | cons it rest ih =>
    intro i db acc
    simp only [upsertLoop]
    rw [ih]
    cases (upsertItem db (clock i) it).2 <;>
      simp [Counts.bump, List.length_cons] <;> omega

theorem decodeIgnore_ascii_append (l t : List Nat) (h : ∀ b ∈ l, b < 0x80) :
    decodeIgnore (l ++ t) = l.map Char.ofNat ++ decodeIgnore t := by
  induction l with
  | nil => simp
  | cons b bs ih =>
    have hb : b < 0x80 := h b (List.mem_cons_self b bs)
    rw [List.cons_append, decodeIgnore.eq_def]
    simp only []
    rw [if_pos hb]
    simp only [List.map_cons, List.cons_append]
    rw [ih (fun x hx => h x (List.mem_cons_of_mem b hx))]

theorem decodeIgnore_nil : decodeIgnore [] = [] := by
  rw [decodeIgnore.eq_def]

theorem decodeIgnore_ff_cons (t : List Nat) :
    decodeIgnore (0xFF :: t) = decodeIgnore t := by
  rw [decodeIgnore.eq_def]
  norm_num

theorem toNat_ofNat_ascii (b : Nat) (h : b < 128) :
    (Char.ofNat b).toNat = b := by
  unfold Char.ofNat
  rw [dif_pos (Or.inl (by omega : b < 55296))]
  rfl

/-! ## Claim theorems -/

/-- C9: classification is a partition of the batch — every item of a
batch passed to `upsert_items` increments exactly one of the three
counters, so added + updated + unchanged equals the batch size. -/
theorem upsert_items_counts_partition (db : DB) (clock : Nat → String)
    (items : List Item) :
    (upsert_items db clock items).2.added +
      (upsert_items db clock items).2.updated +
      (upsert_items db clock items).2.unchanged = items.length := by
  have h := upsertLoop_counts_sum clock items 0 db Counts.zero
  simpa [upsert_items, Counts.zero] using h

/-- C10: the manual-import endpoint routes the payload through the same
reconciler `upsert_items` but answers with a mapping holding only the
"added" counter — the updated and unchanged counts are discarded from
the response. -/
theorem manual_import_exposes_only_added (db : DB) (clock : Nat → String)
    (items : List Item) :
    manual_import db clock items =
      ((upsert_items db clock items).1,
        [("added", (upsert_items db clock items).2.added)]) ∧
    (manual_import db clock items).2.map Prod.fst = ["added"] :=
  ⟨rfl, rfl⟩

/-- C6 (divergence witness): on the two-line positioning block of the
repository's own scraper test, `_find_block` collapses the newlines of
the block (its `_clean` call), so `_parse_kv_lines` receives a single
line and produces one merged pair instead of one pair per key:value
line — the code contradicts the claim (and the repository's test), which
expect the pair ("Зона вирощування", "усі зони") and the pair
("Рівень мінерального живлення", "середній, високий"). -/
theorem find_block_merges_kv_lines :
    parse_kv_lines
        ((find_block "ПОЗИЦІОНУВАННЯ ГІБРИДА" positioningPage).getD "") =
      [("Зона вирощування",
        "усі зони Рівень мінерального живлення: середній, високий")] ∧
    parse_kv_lines
        ((find_block "ПОЗИЦІОНУВАННЯ ГІБРИДА" positioningPage).getD "") ≠
      [("Зона вирощування", "усі зони"),
       ("Рівень мінерального живлення", "середній, високий")] := by
  constructor
  · decide
  · decide

/-- C7 (counterexample): the claim says undecodable byte sequences are
mapped to a substitution character; in fact `decode("utf-8",
errors="ignore")` drops them — the invalid byte 0xFF decodes to the
empty text, not to U+FFFD. -/
theorem decodeIgnore_drops_not_substitutes :
    decodeIgnore [0xFF] = [] ∧
    decodeIgnore [0xFF] ≠ [Char.ofNat 0xFFFD] := by
  have h : decodeIgnore [0xFF] = [] := by
    rw [decodeIgnore_ff_cons, decodeIgnore_nil]
  exact ⟨h, by simp [h]⟩

/-- C7 (amended): fetch decoding is total and dropping — any byte
sequence decodes without error; an undecodable byte is skipped, the
decodable content around it survives, and no substitution character is
introduced. -/
theorem decodeIgnore_total_and_dropping (pre post : List Nat)
    (hpre : ∀ b ∈ pre, b < 0x80) (hpost : ∀ b ∈ post, b < 0x80) :
    decodeIgnore (pre ++ [0xFF] ++ post) =
      pre.map Char.ofNat ++ post.map Char.ofNat ∧
    Char.ofNat 0xFFFD ∉ decodeIgnore (pre ++ [0xFF] ++ post) := by
  have hmain : decodeIgnore (pre ++ [0xFF] ++ post) =
      pre.map Char.ofNat ++ post.map Char.ofNat := by
    rw [List.append_assoc, decodeIgnore_ascii_append pre _ hpre,
      List.singleton_append, decodeIgnore_ff_cons]
    rw [show post = post ++ [] by simp,
      decodeIgnore_ascii_append post [] hpost]
    simp [decodeIgnore_nil]
  refine ⟨hmain, ?_⟩
  rw [hmain]
  intro hmem
  rcases List.mem_append.mp hmem with hm | hm <;>
  · rcases List.mem_map.mp hm with ⟨b, hb, heq⟩
    first
      | have hlt := hpre b hb
      | have hlt := hpost b hb
    have : (Char.ofNat b).toNat = b := toNat_ofNat_ascii b hlt
    rw [heq] at this
    have hfd : (Char.ofNat 0xFFFD).toNat = 0xFFFD := by decide
    omega

/-- C7 (witness): the amended theorem applied at the concrete bytes
0x61 0xFF 0x62, which decode to "ab" with the invalid byte dropped. -/
theorem decodeIgnore_total_and_dropping_witness :
    decodeIgnore [0x61, 0xFF, 0x62] =
      [0x61].map Char.ofNat ++ [0x62].map Char.ofNat ∧
    Char.ofNat 0xFFFD ∉ decodeIgnore [0x61, 0xFF, 0x62] :=
  decodeIgnore_total_and_dropping [0x61] [0x62]
    (by decide) (by decide)

/-- C8: no error is fatal to a run — for every update request and every
outcome of the fallible per-source pipeline (`scrape` is the outcome of
the one source with a scraper), `run_update` finishes with status
"completed" and `finished_at` set; when the source's pipeline raises, the
exception is caught at the source boundary, a log message naming the
source is appended, and the errors counter is incremented. -/
theorem run_update_always_completes (req : UpdateRequest)
    (scrape : Except String ScrapeResult) (db : DB) (now : String)
    (clock : Nat → String) :
    (run_update req scrape db now clock).1.status = "completed" ∧
    (run_update req scrape db now clock).1.finished_at = some now ∧
    (∀ e, scrape = .error e →
      req.sources.contains "bayer_ua_dekalb" = true →
      (run_update req scrape db now clock).1.counts.errors = 1 ∧
      ("Source bayer_ua_dekalb failed: " ++ e) ∈
        (run_update req scrape db now clock).1.step_logs) := by
  by_cases hua : "bayer_ua_dekalb" ∈ req.sources <;>
    by_cases hus : "bayer_us_dekalb" ∈ req.sources <;>
    rcases scrape with e | r <;>
    cases hdry : req.dry_run <;>
    simp [run_update, source_registry, runSource, Run.log, initRun,
      RunCounts.zero, hua, hus, hdry]

/-- C8 (witness): a request for the one enabled source whose scrape
raises still completes, with the failure logged and counted. -/
theorem run_update_always_completes_witness :
    (run_update ⟨["UA"], ["bayer_ua_dekalb"], false⟩ (Except.error "boom")
      DB.empty "T9" exClock).1.status = "completed" ∧
    (run_update ⟨["UA"], ["bayer_ua_dekalb"], false⟩ (Except.error "boom")
      DB.empty "T9" exClock).1.finished_at = some "T9" ∧
    (run_update ⟨["UA"], ["bayer_ua_dekalb"], false⟩ (Except.error "boom")
      DB.empty "T9" exClock).1.counts.errors = 1 ∧
    ("Source bayer_ua_dekalb failed: boom") ∈
      (run_update ⟨["UA"], ["bayer_ua_dekalb"], false⟩ (Except.error "boom")
        DB.empty "T9" exClock).1.step_logs := by
  have h := run_update_always_completes ⟨["UA"], ["bayer_ua_dekalb"], false⟩
    (Except.error "boom") DB.empty "T9" exClock
  have h2 := h.2.2 "boom" rfl (by decide)
  exact ⟨h.1, h.2.1, h2.1, h2.2⟩

theorem mem_sortedUrls (urls : List String) (s : String) :
    s ∈ sortedUrls urls ↔ s ∈ urls := by
  simp [sortedUrls, List.mem_mergeSort, List.mem_dedup]

theorem sortedUrls_sorted (urls : List String) :
    (sortedUrls urls).Sorted (· ≤ ·) := by
  have h := @List.sorted_mergeSort String (fun a b => decide (a ≤ b))
    (fun a b c hab hbc => by
      simp only [decide_eq_true_eq] at *
      exact le_trans hab hbc)
    (fun a b => by simpa using le_total a b) urls.dedup
  exact h.imp (fun hab => by simpa using hab)

theorem sortedUrls_nodup (urls : List String) :
    (sortedUrls urls).Nodup :=
  (List.mergeSort_perm urls.dedup _).symm.nodup (List.nodup_dedup urls)

/-- C5: the two-tier discovery depth filter.  A string is kept by
`discover_catalog_pages` exactly when some hyperlink of the page
resolves to it with: the fixed start host, a path containing the
catalog segment, a path other than the catalog root and a path depth
(slash count) of exactly 3.  A string is kept by
`discover_product_pages` exactly when some hyperlink resolves to it
with: the host, a path extending the catalog page's own path as a
prefix (trailing slash normalized), not equal to that prefix, and depth
at least 4.  Both results are deduplicated, query-stripped and sorted
lexically. -/
theorem discovery_depth_filter (links : List Link) (catalogPath : String)
    (s : String) :
    (s ∈ discover_catalog_pages links ↔
      ∃ l ∈ links, l.netloc = "www.cropscience.bayer.ua" ∧
        containsCatalogSegment l.path = true ∧
        rstripSlash l.path ≠ "/Products/Dekalb" ∧
        slashCount l.path = 3 ∧ stripQuery l = s) ∧
    (s ∈ discover_product_pages catalogPath links ↔
      ∃ l ∈ links, l.netloc = "www.cropscience.bayer.ua" ∧
        (rstripSlash catalogPath ++ "/").isPrefixOf l.path = true ∧
        rstripSlash l.path ≠ rstripSlash (rstripSlash catalogPath ++ "/") ∧
        4 ≤ slashCount l.path ∧ stripQuery l = s) ∧
    (discover_catalog_pages links).Sorted (· ≤ ·) ∧
    (discover_catalog_pages links).Nodup ∧
    (discover_product_pages catalogPath links).Sorted (· ≤ ·) ∧
    (discover_product_pages catalogPath links).Nodup := by
  refine ⟨?_, ?_, sortedUrls_sorted _, sortedUrls_nodup _,
    sortedUrls_sorted _, sortedUrls_nodup _⟩
  · unfold discover_catalog_pages
    rw [mem_sortedUrls]
    simp only [List.mem_map, List.mem_filter, catalogKeep,
      Bool.and_eq_true, beq_iff_eq, Bool.not_eq_true', beq_eq_false_iff_ne,
      and_assoc]
  · unfold discover_product_pages
    rw [mem_sortedUrls]
    simp only [List.mem_map, List.mem_filter, productKeep,
      Bool.and_eq_true, beq_iff_eq, Bool.not_eq_true', beq_eq_false_iff_ne,
      decide_eq_true_eq, and_assoc]

theorem touchSeen_key (hid : Nat) (now : String) (h : HybridRow) :
    (touchSeen hid now h).key = h.key := by
  unfold touchSeen; split <;> rfl

theorem touchSeen_id (hid : Nat) (now : String) (h : HybridRow) :
    (touchSeen hid now h).id = h.id := by
  unfold touchSeen; split <;> rfl

theorem touchBoth_key (hid : Nat) (now : String) (h : HybridRow) :
    (touchBoth hid now h).key = h.key := by
  unfold touchBoth; split <;> rfl

theorem touchBoth_id (hid : Nat) (now : String) (h : HybridRow) :
    (touchBoth hid now h).id = h.id := by
  unfold touchBoth; split <;> rfl

theorem mkHybridRow_key (id : Nat) (now : String) (item : Item) :
    (mkHybridRow id now item).key = item.key := rfl

theorem findHybrid_key (db : DB) (k : String × String × String)
    (h : HybridRow) (hf : findHybrid db k = some h) :
    h.key = k ∧ h ∈ db.hybrids := by
  refine ⟨?_, List.mem_of_find?_eq_some hf⟩
  have := List.find?_some hf
  simpa using this

theorem findHybrid_none (db : DB) (k : String × String × String)
    (hf : findHybrid db k = none) : ∀ h ∈ db.hybrids, h.key ≠ k := by
  intro h hm
  have := List.find?_eq_none.mp hf h hm
  simpa using this

theorem find?_key_map (l : List HybridRow) (f : HybridRow → HybridRow)
    (hkey : ∀ h, (f h).key = h.key) (k : String × String × String) :
    (l.map f).find? (fun h => h.key == k) =
      (l.find? (fun h => h.key == k)).map f := by
  rw [List.find?_map]
  have : ((fun h : HybridRow => h.key == k) ∘ f) =
      (fun h : HybridRow => h.key == k) := by
    funext h; simp [Function.comp, hkey]
  rw [this]

theorem filter_write_self (attrs : List AttrRow) (hid : Nat)
    (rows : List ItemAttr) (now url : String) :
    (attrs.filter (fun a => ! (a.hybrid_id == hid)) ++
        rows.map (mkAttrRow hid now url)).filter
      (fun a => a.hybrid_id == hid) = rows.map (mkAttrRow hid now url) := by
  rw [List.filter_append]
  have h1 : (attrs.filter (fun a => ! (a.hybrid_id == hid))).filter
      (fun a => a.hybrid_id == hid) = [] := by
    rw [List.filter_filter]
    apply List.filter_eq_nil_iff.mpr
    intro a _
    by_cases hh : a.hybrid_id = hid <;> simp [hh]
  have h2 : (rows.map (mkAttrRow hid now url)).filter
      (fun a => a.hybrid_id == hid) = rows.map (mkAttrRow hid now url) := by
    apply List.filter_eq_self.mpr
    intro a ha
    rcases List.mem_map.mp ha with ⟨r, _, hr⟩
    rw [← hr]
    simp [mkAttrRow]
  rw [h1, h2, List.nil_append]

theorem filter_write_other (attrs : List AttrRow) (hid hid2 : Nat)
    (rows : List ItemAttr) (now url : String) (hne : hid2 ≠ hid) :
    (attrs.filter (fun a => ! (a.hybrid_id == hid)) ++
        rows.map (mkAttrRow hid now url)).filter
      (fun a => a.hybrid_id == hid2) =
      attrs.filter (fun a => a.hybrid_id == hid2) := by
  rw [List.filter_append]
  have h1 : (attrs.filter (fun a => ! (a.hybrid_id == hid))).filter
      (fun a => a.hybrid_id == hid2) =
      attrs.filter (fun a => a.hybrid_id == hid2) := by
    rw [List.filter_filter]
    apply List.filter_congr
    intro a _
    by_cases hh : a.hybrid_id = hid2 <;> simp [hh, hne]
  have h2 : (rows.map (mkAttrRow hid now url)).filter
      (fun a => a.hybrid_id == hid2) = [] := by
    apply List.filter_eq_nil_iff.mpr
    intro a ha
    rcases List.mem_map.mp ha with ⟨r, _, hr⟩
    rw [← hr]
    simp [mkAttrRow, Ne.symm hne]
  rw [h1, h2, List.append_nil]

/-- Characterization of `upsertItem` on a pre-existing hybrid with
matching fingerprints: unchanged, only `last_seen` touched. -/
theorem upsertItem_found_eq (db : DB) (now : String) (item : Item)
    (h : HybridRow) (hf : findHybrid db item.key = some h)
    (hfp : fingerprint (itemTriples item) =
      fingerprint (rowTriples (attrsFor db h.id))) :
    upsertItem db now item =
      ({ db with hybrids := db.hybrids.map (touchSeen h.id now) },
        Class.unchanged) := by
  simp only [upsertItem, hf, Option.isSome_some, if_true, Option.map_some,
    Option.getD_some, hfp]
  simp

/-- Characterization of `upsertItem` on a pre-existing hybrid with
differing fingerprints: updated, attribute set replaced wholesale. -/
theorem upsertItem_found_ne (db : DB) (now : String) (item : Item)
    (h : HybridRow) (hf : findHybrid db item.key = some h)
    (hfp : fingerprint (itemTriples item) ≠
      fingerprint (rowTriples (attrsFor db h.id))) :
    upsertItem db now item =
      ({ db with
          hybrids := db.hybrids.map (touchBoth h.id now)
          attrs := db.attrs.filter (fun a => ! (a.hybrid_id == h.id)) ++
            item.attributes.map (mkAttrRow h.id now item.source_url) },
        Class.updated) := by
  simp only [upsertItem, hf, Option.isSome_some, if_true, Option.map_some,
    Option.getD_some]
  simp [hfp]

/-- Characterization of `upsertItem` on an absent identity key: a fresh
hybrid row is inserted (added) and its attribute set written. -/
theorem upsertItem_absent (db : DB) (now : String) (item : Item)
    (hf : findHybrid db item.key = none) :
    upsertItem db now item =
      (DB.mk
        ((db.hybrids ++ [mkHybridRow db.nextId now item]).map
          (touchBoth db.nextId now))
        (db.attrs.filter (fun a => ! (a.hybrid_id == db.nextId)) ++
          item.attributes.map (mkAttrRow db.nextId now item.source_url))
        (db.nextId + 1),
        Class.added) := by
  have hfind : findHybrid
      (DB.mk (db.hybrids ++ [mkHybridRow db.nextId now item]) db.attrs
        (db.nextId + 1)) item.key =
      some (mkHybridRow db.nextId now item) := by
    unfold findHybrid at hf ⊢
    simp only [List.find?_append, hf, Option.none_or]
    simp [mkHybridRow_key]
  simp only [upsertItem, hf, Option.isSome_none, if_false, hfind,
    Option.map_some, Option.getD_some, Bool.false_eq_true, false_and]
  simp [mkHybridRow]

theorem map_ids_touchSeen (l : List HybridRow) (hid : Nat) (now : String) :
    (l.map (touchSeen hid now)).map (fun g => g.id) =
      l.map (fun g => g.id) := by
  rw [List.map_map]
  have : ((fun g : HybridRow => g.id) ∘ touchSeen hid now) =
      (fun g : HybridRow => g.id) := funext fun g => touchSeen_id hid now g
  rw [this]

theorem map_ids_touchBoth (l : List HybridRow) (hid : Nat) (now : String) :
    (l.map (touchBoth hid now)).map (fun g => g.id) =
      l.map (fun g => g.id) := by
  rw [List.map_map]
  have : ((fun g : HybridRow => g.id) ∘ touchBoth hid now) =
      (fun g : HybridRow => g.id) := funext fun g => touchBoth_id hid now g
  rw [this]

theorem map_keys_touchSeen (l : List HybridRow) (hid : Nat) (now : String) :
    (l.map (touchSeen hid now)).map HybridRow.key = l.map HybridRow.key := by
  rw [List.map_map]
  have : (HybridRow.key ∘ touchSeen hid now) = HybridRow.key :=
    funext fun g => touchSeen_key hid now g
  rw [this]

theorem map_keys_touchBoth (l : List HybridRow) (hid : Nat) (now : String) :
    (l.map (touchBoth hid now)).map HybridRow.key = l.map HybridRow.key := by
  rw [List.map_map]
  have : (HybridRow.key ∘ touchBoth hid now) = HybridRow.key :=
    funext fun g => touchBoth_key hid now g
  rw [this]

theorem WF_upsertItem (db : DB) (now : String) (item : Item) (hw : WF db) :
    WF (upsertItem db now item).1 := by
  obtain ⟨hnd, hlt⟩ := hw
  cases hf : findHybrid db item.key with
  | some h =>
    by_cases hfp : fingerprint (itemTriples item) =
        fingerprint (rowTriples (attrsFor db h.id))
    · rw [upsertItem_found_eq db now item h hf hfp]
      refine ⟨?_, ?_⟩
      · show ((db.hybrids.map (touchSeen h.id now)).map (fun g => g.id)).Nodup
        rw [map_ids_touchSeen]; exact hnd
      · intro g hg
        rcases List.mem_map.mp hg with ⟨g0, hg0, rfl⟩
        show (touchSeen h.id now g0).id < db.nextId
        rw [touchSeen_id]; exact hlt g0 hg0
    · rw [upsertItem_found_ne db now item h hf hfp]
      refine ⟨?_, ?_⟩
      · show ((db.hybrids.map (touchBoth h.id now)).map (fun g => g.id)).Nodup
        rw [map_ids_touchBoth]; exact hnd
      · intro g hg
        rcases List.mem_map.mp hg with ⟨g0, hg0, rfl⟩
        show (touchBoth h.id now g0).id < db.nextId
        rw [touchBoth_id]; exact hlt g0 hg0
  | none =>
    rw [upsertItem_absent db now item hf]
    refine ⟨?_, ?_⟩
    · show (((db.hybrids ++ [mkHybridRow db.nextId now item]).map
        (touchBoth db.nextId now)).map (fun g => g.id)).Nodup
      rw [map_ids_touchBoth, List.map_append]
      rw [List.nodup_append]
      refine ⟨hnd, by simp, ?_⟩
      intro x hx
      rcases List.mem_map.mp hx with ⟨g0, hg0, rfl⟩
      simp only [mkHybridRow, List.map_cons, List.map_nil,
        List.mem_singleton]
      exact fun hcon => absurd hcon (Nat.ne_of_lt (hlt g0 hg0))
    · intro g hg
      rcases List.mem_map.mp hg with ⟨g0, hg0, rfl⟩
      show (touchBoth db.nextId now g0).id < db.nextId + 1
      rw [touchBoth_id]
      rcases List.mem_append.mp hg0 with hm | hm
      · exact Nat.lt_succ_of_lt (hlt g0 hm)
      · rcases List.mem_singleton.mp hm with rfl
        exact Nat.lt_succ_self _

theorem rowTriples_mkAttrRow (rows : List ItemAttr) (hid : Nat)
    (now url : String) :
    rowTriples (rows.map (mkAttrRow hid now url)) =
      rows.map (fun a => (a.key, a.value, a.evidence)) := by
  unfold rowTriples
  rw [List.map_map]
  rfl

theorem Good_upsertItem_self (db : DB) (now : String) (item : Item) :
    Good (upsertItem db now item).1 item := by
  cases hf : findHybrid db item.key with
  | some h =>
    by_cases hfp : fingerprint (itemTriples item) =
        fingerprint (rowTriples (attrsFor db h.id))
    · rw [upsertItem_found_eq db now item h hf hfp]
      refine ⟨touchSeen h.id now h, ?_, ?_⟩
      · show (db.hybrids.map (touchSeen h.id now)).find?
          (fun g => g.key == item.key) = some (touchSeen h.id now h)
        rw [find?_key_map _ _ (touchSeen_key h.id now)]
        unfold findHybrid at hf
        rw [hf]
        rfl
      · rw [touchSeen_id]
        exact hfp
    · rw [upsertItem_found_ne db now item h hf hfp]
      refine ⟨touchBoth h.id now h, ?_, ?_⟩
      · show (db.hybrids.map (touchBoth h.id now)).find?
          (fun g => g.key == item.key) = some (touchBoth h.id now h)
        rw [find?_key_map _ _ (touchBoth_key h.id now)]
        unfold findHybrid at hf
        rw [hf]
        rfl
      · rw [touchBoth_id]
        show fingerprint (itemTriples item) = fingerprint (rowTriples
          ((db.attrs.filter (fun a => ! (a.hybrid_id == h.id)) ++
            item.attributes.map (mkAttrRow h.id now item.source_url)).filter
            (fun a => a.hybrid_id == h.id)))
        rw [filter_write_self, rowTriples_mkAttrRow]
        rfl
  | none =>
    rw [upsertItem_absent db now item hf]
    refine ⟨touchBoth db.nextId now (mkHybridRow db.nextId now item), ?_, ?_⟩
    · show ((db.hybrids ++ [mkHybridRow db.nextId now item]).map
        (touchBoth db.nextId now)).find? (fun g => g.key == item.key) =
        some (touchBoth db.nextId now (mkHybridRow db.nextId now item))
      rw [find?_key_map _ _ (touchBoth_key db.nextId now)]
      unfold findHybrid at hf
      rw [List.find?_append, hf]
      simp [mkHybridRow_key]
    · rw [touchBoth_id]
      show fingerprint (itemTriples item) = fingerprint (rowTriples
        ((db.attrs.filter (fun a => ! (a.hybrid_id == (mkHybridRow db.nextId
          now item).id)) ++ item.attributes.map (mkAttrRow db.nextId now
          item.source_url)).filter
          (fun a => a.hybrid_id == (mkHybridRow db.nextId now item).id)))
      rw [show (mkHybridRow db.nextId now item).id = db.nextId from rfl]
      rw [filter_write_self, rowTriples_mkAttrRow]
      rfl

theorem Good_upsertItem_other (db : DB) (now : String) (item it0 : Item)
    (hw : WF db) (hg : Good db it0) (hne : item.key ≠ it0.key) :
    Good (upsertItem db now item).1 it0 := by
  obtain ⟨hnd, hlt⟩ := hw
  obtain ⟨h0, hf0, hfp0⟩ := hg
  obtain ⟨hk0, hm0⟩ := findHybrid_key db it0.key h0 hf0
  cases hf : findHybrid db item.key with
  | some h =>
    obtain ⟨hk, hm⟩ := findHybrid_key db item.key h hf
    have hid : h0.id ≠ h.id := by
      intro hcon
      have heq : h0 = h := List.inj_on_of_nodup_map hnd hm0 hm hcon
      apply hne
      rw [← hk, ← heq, hk0]
    by_cases hfp : fingerprint (itemTriples item) =
        fingerprint (rowTriples (attrsFor db h.id))
    · rw [upsertItem_found_eq db now item h hf hfp]
      refine ⟨touchSeen h.id now h0, ?_, ?_⟩
      · show (db.hybrids.map (touchSeen h.id now)).find?
          (fun g => g.key == it0.key) = some (touchSeen h.id now h0)
        rw [find?_key_map _ _ (touchSeen_key h.id now)]
        unfold findHybrid at hf0
        rw [hf0]
        rfl
      · rw [touchSeen_id]
        exact hfp0
    · rw [upsertItem_found_ne db now item h hf hfp]
      refine ⟨touchBoth h.id now h0, ?_, ?_⟩
      · show (db.hybrids.map (touchBoth h.id now)).find?
          (fun g => g.key == it0.key) = some (touchBoth h.id now h0)
        rw [find?_key_map _ _ (touchBoth_key h.id now)]
        unfold findHybrid at hf0
        rw [hf0]
        rfl
      · rw [touchBoth_id]
        show fingerprint (itemTriples it0) = fingerprint (rowTriples
          ((db.attrs.filter (fun a => ! (a.hybrid_id == h.id)) ++
            item.attributes.map (mkAttrRow h.id now item.source_url)).filter
            (fun a => a.hybrid_id == h0.id)))
        rw [filter_write_other _ _ _ _ _ _ hid]
        exact hfp0
  | none =>
    have hid : h0.id ≠ db.nextId := Nat.ne_of_lt (hlt h0 hm0)
    rw [upsertItem_absent db now item hf]
    refine ⟨touchBoth db.nextId now h0, ?_, ?_⟩
    · show ((db.hybrids ++ [mkHybridRow db.nextId now item]).map
        (touchBoth db.nextId now)).find? (fun g => g.key == it0.key) =
        some (touchBoth db.nextId now h0)
      rw [find?_key_map _ _ (touchBoth_key db.nextId now), List.find?_append]
      unfold findHybrid at hf0
      rw [hf0]
      rfl
    · rw [touchBoth_id]
      show fingerprint (itemTriples it0) = fingerprint (rowTriples
        ((db.attrs.filter (fun a => ! (a.hybrid_id == db.nextId)) ++
          item.attributes.map (mkAttrRow db.nextId now
            item.source_url)).filter (fun a => a.hybrid_id == h0.id)))
      rw [filter_write_other _ _ _ _ _ _ hid]
      exact hfp0

theorem Good_upsertLoop_other (clock : Nat → String) (items : List Item) :
    ∀ (i : Nat) (db : DB) (acc : Counts) (it0 : Item), WF db →
      Good db it0 → (∀ it ∈ items, it.key ≠ it0.key) →
      Good (upsertLoop clock i db acc items).1 it0 := by
  induction items with
  | nil => intro i db acc it0 _ hg _; simpa [upsertLoop] using hg
  | cons it rest ih =>
    intro i db acc it0 hw hg hk
    simp only [upsertLoop]
    exact ih (i + 1) _ _ it0 (WF_upsertItem db (clock i) it hw)
      (Good_upsertItem_other db (clock i) it it0 hw hg
        (hk it (List.mem_cons_self it rest)))
      (fun x hx => hk x (List.mem_cons_of_mem it hx))

theorem Good_upsertLoop_all (clock : Nat → String) (items : List Item) :
    ∀ (i : Nat) (db : DB) (acc : Counts), WF db →
      items.Pairwise (fun a b => a.key ≠ b.key) →
      ∀ it ∈ items, Good (upsertLoop clock i db acc items).1 it := by
  induction items with
  | nil => intro i db acc _ _ it hit; cases hit
  | cons it0 rest ih =>
    intro i db acc hw hp it hit
    simp only [upsertLoop]
    rcases List.mem_cons.mp hit with rfl | hmem
    · exact Good_upsertLoop_other clock rest (i + 1) _ _ it
        (WF_upsertItem db (clock i) it hw)
        (Good_upsertItem_self db (clock i) it)
        (fun x hx hcon => (List.pairwise_cons.mp hp).1 x hx hcon.symm)
    · exact ih (i + 1) _ _ (WF_upsertItem db (clock i) it0 hw)
        (List.pairwise_cons.mp hp).2 it hmem

theorem Good_touchSeen_map (db : DB) (hid : Nat) (now : String) (it0 : Item)
    (hg : Good db it0) :
    Good { db with hybrids := db.hybrids.map (touchSeen hid now) } it0 := by
  obtain ⟨h0, hf0, hfp0⟩ := hg
  refine ⟨touchSeen hid now h0, ?_, ?_⟩
  · show (db.hybrids.map (touchSeen hid now)).find?
      (fun g => g.key == it0.key) = some (touchSeen hid now h0)
    rw [find?_key_map _ _ (touchSeen_key hid now)]
    unfold findHybrid at hf0
    rw [hf0]
    rfl
  · rw [touchSeen_id]
    exact hfp0

theorem upsertLoop_all_unchanged (clock : Nat → String) (items : List Item) :
    ∀ (i : Nat) (db : DB) (acc : Counts), (∀ it ∈ items, Good db it) →
      (upsertLoop clock i db acc items).2 =
        ⟨acc.added, acc.updated, acc.unchanged + items.length⟩ ∧
      (upsertLoop clock i db acc items).1.attrs = db.attrs := by
  induction items with
  | nil => intro i db acc _; exact ⟨by simp [upsertLoop], rfl⟩
  | cons it rest ih =>
    intro i db acc hgood
    obtain ⟨h0, hf0, hfp0⟩ := hgood it (List.mem_cons_self it rest)
    simp only [upsertLoop]
    rw [upsertItem_found_eq db (clock i) it h0 hf0 hfp0]
    have hG2 : ∀ x ∈ rest,
        Good { db with hybrids := db.hybrids.map (touchSeen h0.id (clock i)) }
          x :=
      fun x hx => Good_touchSeen_map db h0.id (clock i) x
        (hgood x (List.mem_cons_of_mem it hx))
    obtain ⟨hc, ha⟩ := ih (i + 1) _ (acc.bump Class.unchanged) hG2
    refine ⟨?_, ha⟩
    rw [hc]
    simp only [Counts.bump, List.length_cons, Counts.mk.injEq]
    exact ⟨trivial, trivial, by omega⟩

/-- C1 (amended): reconciliation is idempotent on batches whose identity
keys are pairwise distinct — replaying the identical batch on a
well-formed store yields, on the second pass, added=0, updated=0,
unchanged=N (N the batch size), and the stored attribute rows are
identical before and after the second pass. -/
theorem upsert_items_idempotent (db : DB) (clock clock2 : Nat → String)
    (items : List Item) (hw : WF db)
    (hd : items.Pairwise (fun a b => a.key ≠ b.key)) :
    (upsert_items (upsert_items db clock items).1 clock2 items).2 =
      ⟨0, 0, items.length⟩ ∧
    (upsert_items (upsert_items db clock items).1 clock2 items).1.attrs =
      (upsert_items db clock items).1.attrs := by
  have hgood : ∀ it ∈ items, Good (upsert_items db clock items).1 it :=
    fun it hit => Good_upsertLoop_all clock items 0 db Counts.zero hw hd it hit
  have h := upsertLoop_all_unchanged clock2 items 0
    (upsert_items db clock items).1 Counts.zero hgood
  exact ⟨by simpa [upsert_items, Counts.zero] using h.1, h.2⟩

/-- C1 (witness): the amended idempotence theorem applied to a fresh
store and a two-item batch with distinct identity keys. -/
theorem upsert_items_idempotent_witness :
    (upsert_items (upsert_items DB.empty exClock [exItemOne, exItemB]).1
      exClock [exItemOne, exItemB]).2 = ⟨0, 0, 2⟩ ∧
    (upsert_items (upsert_items DB.empty exClock [exItemOne, exItemB]).1
      exClock [exItemOne, exItemB]).1.attrs =
      (upsert_items DB.empty exClock [exItemOne, exItemB]).1.attrs := by
  have h := upsert_items_idempotent DB.empty exClock exClock
    [exItemOne, exItemB] (by constructor <;> simp [DB.empty])
    (by simp [exItemOne, exItemB, Item.key])
  exact ⟨h.1, h.2⟩

/-- C1 (counterexample): on a batch holding two items with the same
identity key but different attribute sets, the second pass classifies
both as updated (counts (0, 2, 0)), not all-unchanged (0, 0, 2), so
idempotence fails for the claim's unrestricted batches. -/
theorem upsert_items_not_idempotent_duplicate_keys :
    (upsert_items (upsert_items DB.empty exClock [exItemOne, exItemTwo]).1
      exClock [exItemOne, exItemTwo]).2 = ⟨0, 2, 0⟩ ∧
    (upsert_items (upsert_items DB.empty exClock [exItemOne, exItemTwo]).1
      exClock [exItemOne, exItemTwo]).2 ≠ ⟨0, 0, 2⟩ := by
  constructor
  · decide
  · decide

/-- C2: change is an all-or-nothing replacement — an item whose identity
key resolves to a stored hybrid and whose canonical attribute
fingerprint differs from the stored one is classified updated
(updated incremented by 1), and afterwards the hybrid's attribute rows
are exactly the item's new attribute rows: nothing of the prior set
survives. -/
theorem upsert_items_change_replaces_wholesale (db : DB)
    (clock : Nat → String) (it : Item) (h : HybridRow)
    (hf : findHybrid db it.key = some h)
    (hfp : fingerprint (itemTriples it) ≠
      fingerprint (rowTriples (attrsFor db h.id))) :
    (upsert_items db clock [it]).2 = ⟨0, 1, 0⟩ ∧
    attrsFor (upsert_items db clock [it]).1 h.id =
      it.attributes.map (mkAttrRow h.id (clock 0) it.source_url) := by
  have hchar := upsertItem_found_ne db (clock 0) it h hf hfp
  constructor
  · show (upsertLoop clock 0 db Counts.zero [it]).2 = ⟨0, 1, 0⟩
    simp only [upsertLoop, hchar]
    rfl
  · show attrsFor (upsertLoop clock 0 db Counts.zero [it]).1 h.id = _
    simp only [upsertLoop, hchar]
    show (db.attrs.filter (fun a => ! (a.hybrid_id == h.id)) ++
      it.attributes.map (mkAttrRow h.id (clock 0) it.source_url)).filter
      (fun a => a.hybrid_id == h.id) = _
    exact filter_write_self db.attrs h.id it.attributes (clock 0)
      it.source_url

/-- C2 (witness): the replacement theorem applied to a store holding
`exItemOne` and the same-key item `exItemTwo` with a different value. -/
theorem upsert_items_change_replaces_wholesale_witness :
    (upsert_items exDB exClock [exItemTwo]).2 = ⟨0, 1, 0⟩ ∧
    attrsFor (upsert_items exDB exClock [exItemTwo]).1 exHybrid.id =
      exItemTwo.attributes.map
        (mkAttrRow exHybrid.id (exClock 0) exItemTwo.source_url) :=
  upsert_items_change_replaces_wholesale exDB exClock exItemTwo exHybrid
    (by decide) (by decide)

/-- C3: unchanged items leave everything but `last_seen` untouched — an
item whose identity key resolves to a stored hybrid with an equal
canonical fingerprint is classified unchanged; only that hybrid's
`last_seen` field changes (`touchSeen` rewrites nothing else), the
attribute rows and the next id stay exactly as they were. -/
theorem upsert_items_unchanged_frame (db : DB) (clock : Nat → String)
    (it : Item) (h : HybridRow)
    (hf : findHybrid db it.key = some h)
    (hfp : fingerprint (itemTriples it) =
      fingerprint (rowTriples (attrsFor db h.id))) :
    (upsert_items db clock [it]).2 = ⟨0, 0, 1⟩ ∧
    (upsert_items db clock [it]).1.attrs = db.attrs ∧
    (upsert_items db clock [it]).1.hybrids =
      db.hybrids.map (touchSeen h.id (clock 0)) ∧
    (upsert_items db clock [it]).1.nextId = db.nextId := by
  have hchar := upsertItem_found_eq db (clock 0) it h hf hfp
  refine ⟨?_, ?_, ?_, ?_⟩ <;> simp only [upsert_items, upsertLoop, hchar] <;>
    rfl

/-- C3 (witness): the frame theorem applied to a store holding
`exItemOne` and the identical item `exItemOne` again. -/
theorem upsert_items_unchanged_frame_witness :
    (upsert_items exDB exClock [exItemOne]).2 = ⟨0, 0, 1⟩ ∧
    (upsert_items exDB exClock [exItemOne]).1.attrs = exDB.attrs ∧
    (upsert_items exDB exClock [exItemOne]).1.hybrids =
      exDB.hybrids.map (touchSeen exHybrid.id (exClock 0)) ∧
    (upsert_items exDB exClock [exItemOne]).1.nextId = exDB.nextId :=
  upsert_items_unchanged_frame exDB exClock exItemOne exHybrid
    (by decide) (by decide)

theorem UniqueKeys_upsertItem (db : DB) (now : String) (item : Item)
    (hu : UniqueKeys db) : UniqueKeys (upsertItem db now item).1 := by
  cases hf : findHybrid db item.key with
  | some h =>
    by_cases hfp : fingerprint (itemTriples item) =
        fingerprint (rowTriples (attrsFor db h.id))
    · rw [upsertItem_found_eq db now item h hf hfp]
      show (db.hybrids.map (touchSeen h.id now)).Pairwise
        (fun a b => a.key ≠ b.key)
      rw [List.pairwise_map]
      exact hu.imp (fun hab => by
        rw [touchSeen_key, touchSeen_key]; exact hab)
    · rw [upsertItem_found_ne db now item h hf hfp]
      show (db.hybrids.map (touchBoth h.id now)).Pairwise
        (fun a b => a.key ≠ b.key)
      rw [List.pairwise_map]
      exact hu.imp (fun hab => by
        rw [touchBoth_key, touchBoth_key]; exact hab)
  | none =>
    rw [upsertItem_absent db now item hf]
    show ((db.hybrids ++ [mkHybridRow db.nextId now item]).map
      (touchBoth db.nextId now)).Pairwise (fun a b => a.key ≠ b.key)
    rw [List.pairwise_map]
    have happ : (db.hybrids ++ [mkHybridRow db.nextId now item]).Pairwise
        (fun a b => a.key ≠ b.key) := by
      rw [List.pairwise_append]
      refine ⟨hu, by simp, ?_⟩
      intro a ha b hb
      rcases List.mem_singleton.mp hb with rfl
      rw [mkHybridRow_key]
      exact findHybrid_none db item.key hf a ha
    exact happ.imp (fun hab => by
      rw [touchBoth_key, touchBoth_key]; exact hab)

theorem UniqueKeys_upsertLoop (clock : Nat → String) (items : List Item) :
    ∀ (i : Nat) (db : DB) (acc : Counts), UniqueKeys db →
      UniqueKeys (upsertLoop clock i db acc items).1 := by
  induction items with
  | nil => intro i db acc hu; exact hu
  | cons it rest ih =>
    intro i db acc hu
    simp only [upsertLoop]
    exact ih (i + 1) _ _ (UniqueKeys_upsertItem db (clock i) it hu)

/-- C4: identity uniqueness is preserved by every reconciliation — a
store whose hybrid rows have pairwise-distinct (name, market,
source_url) keys keeps that invariant across any sequence of
`upsert_items` calls; and reconciling an item whose identity key already
resolves to a row never creates a second row: the key list of the
`hybrids` table is unchanged (the operation resolves to the existing
row). -/
theorem upsert_items_identity_unique (db : DB)
    (runs : List ((Nat → String) × List Item)) (hu : UniqueKeys db) :
    UniqueKeys (runs.foldl (fun d r => (upsert_items d r.1 r.2).1) db) ∧
    (∀ (clock : Nat → String) (it : Item) (h : HybridRow),
      findHybrid db it.key = some h →
      (upsert_items db clock [it]).1.hybrids.map HybridRow.key =
        db.hybrids.map HybridRow.key) := by
  constructor
  · induction runs generalizing db with
    | nil => exact hu
    | cons r rest ih =>
      exact ih _ (UniqueKeys_upsertLoop r.1 r.2 0 db Counts.zero hu)
  · intro clock it h hf
    by_cases hfp : fingerprint (itemTriples it) =
        fingerprint (rowTriples (attrsFor db h.id))
    · have hchar := upsertItem_found_eq db (clock 0) it h hf hfp
      show (upsertLoop clock 0 db Counts.zero [it]).1.hybrids.map
        HybridRow.key = _
      simp only [upsertLoop, hchar]
      exact map_keys_touchSeen db.hybrids h.id (clock 0)
    · have hchar := upsertItem_found_ne db (clock 0) it h hf hfp
      show (upsertLoop clock 0 db Counts.zero [it]).1.hybrids.map
        HybridRow.key = _
      simp only [upsertLoop, hchar]
      exact map_keys_touchBoth db.hybrids h.id (clock 0)

/-- C4 (witness): the uniqueness theorem applied to the store holding
`exItemOne`, one further reconciliation run, and an insert resolving to
the existing row. -/
theorem upsert_items_identity_unique_witness :
    UniqueKeys ([((exClock, [exItemTwo, exItemB]) : (Nat → String) ×
      List Item)].foldl (fun d r => (upsert_items d r.1 r.2).1) exDB) ∧
    (upsert_items exDB exClock [exItemOne]).1.hybrids.map HybridRow.key =
      exDB.hybrids.map HybridRow.key := by
  have h := upsert_items_identity_unique exDB [(exClock, [exItemTwo, exItemB])]
    (by simp [UniqueKeys, exDB])
  exact ⟨h.1, h.2 exClock exItemOne exHybrid (by decide)⟩

end Parostok
